import Mathlib

/-!
Verification development for the `redrec` session-recording tool
(`src/redrec.py`). Two components are embedded:

* the operation registry (`read_operations`, `save_operation`), a
  newline-delimited, deduplicated, append-only file of operation names;
* the interactive selector (`select_operation`), a raw-mode terminal menu
  driven by arrow keys, with its rendering and terminal-mode side effects
  made explicit as an effect trace.

The file system is modelled as the content of the single registry file
(`Option String`: `none` = the file does not exist), byte input to the
selector as a `List Char`, and terminal effects as an explicit trace.
-/

namespace Redrec

/-- The characters Python's `str.splitlines` treats as line boundaries
(`read_operations` reads the file with `f.read().splitlines()`). -/
def isLineBreak (c : Char) : Bool :=
  c = '\n' ∨ c = '\r' ∨ c = '\x0b' ∨ c = '\x0c' ∨ c = '\x1c' ∨ c = '\x1d' ∨
    c = '\x1e' ∨ c = '\x85' ∨ c = '\u2028' ∨ c = '\u2029'

/-- Worker for `splitlines`: `acc` is the current (reversed) partial line;
`afterCR` records that the previous character was a `'\r'` whose line was
already emitted, so that a directly following `'\n'` is part of the same
`"\r\n"` boundary and starts no new line.  A trailing partial line is kept,
and a trailing line terminator does not produce an empty final line —
exactly Python's `str.splitlines` behaviour. -/
def splitlinesAux : List Char → List Char → Bool → List (List Char)
  | [], acc, _ => if acc.isEmpty then [] else [acc.reverse]
  | c :: cs, acc, afterCR =>
    if afterCR ∧ c = '\n' then splitlinesAux cs acc false
    else if c = '\r' then acc.reverse :: splitlinesAux cs [] true
    else if isLineBreak c then acc.reverse :: splitlinesAux cs [] false
    else splitlinesAux cs (c :: acc) false

/-- Python's `str.splitlines` (the read path of the registry). -/
def splitlines (s : String) : List String :=
  (splitlinesAux s.data [] false).map (fun cs => String.mk cs)

/-- `read_operations` (redrec.py:19-27): if the registry file exists, read
its whole content and split into lines; otherwise return the empty list.
`fs` is the registry file's content (`none` = file absent). The shared
`flock` around the read has no effect in this single-writer model. -/
def read_operations (fs : Option String) : List String :=
  match fs with
  | some content => splitlines content
  | none => []

/-- `save_operation` (redrec.py:29-37): read the registry; if the name is
not already present, open the file in append mode (creating it when absent,
hence `fs.getD ""`) and write the name followed by a newline. The exclusive
`flock` around the write has no effect in this single-writer model. -/
def save_operation (operation_name : String) (fs : Option String) :
    Option String :=
  let operations := read_operations fs
  if operation_name ∈ operations then fs
  else some (fs.getD "" ++ operation_name ++ "\n")

/-- A name free of line-break characters.  The spec's registry file format
(§6) is newline-delimited with no escaping, so names containing line
boundaries are outside the data model. -/
def lineFree (s : String) : Bool :=
  s.data.all (fun c => !isLineBreak c)

/-- The registry file content denoting the list `l` of names: each name
followed by `"\n"`, in order — the only contents `save_operation` ever
produces starting from an absent file. -/
def encodeRegistry : List String → String
  | [] => ""
  | x :: l => x ++ "\n" ++ encodeRegistry l

/-! ## Interactive selector (`select_operation`, redrec.py:88-129)

Byte input from stdin is a `List Char` (one entry per `getch()` result).
The observable side effects — printing lines, erasing previously printed
lines (`clear_previous_lines`), and changing the terminal mode
(`tty.setraw` / `termios.tcsetattr`) — are recorded in an explicit trace.
Terminal-mode settings are an opaque type `M`: `getch` saves the current
settings, switches to some raw settings `raw`, reads one byte, and restores
the saved settings (redrec.py:88-96). -/

/-- One observable terminal effect. -/
inductive Eff (M : Type) where
  /-- `print(...)`: the given lines appear at the bottom of the screen. -/
  | print (lines : List String)
  /-- `clear_previous_lines(n)` (redrec.py:98-101): move up and erase `n`
  lines. -/
  | clear (n : Nat)
  /-- `termios.tcsetattr` / `tty.setraw`: the terminal mode becomes `m`. -/
  | setMode (m : M)
deriving DecidableEq

/-- Result of running the selector on a finite byte stream. -/
inductive Outcome where
  /-- `return operations[selected_index]` (redrec.py:127). -/
  | confirmed (result : String)
  /-- `sys.exit(0)` on Ctrl-C (redrec.py:129): the process terminates with
  a success exit status and no result value. -/
  | cancelled
  /-- The modelled byte stream is exhausted: the loop is blocked inside a
  read, cursor at `cursor`. -/
  | blocked (cursor : Nat)
deriving DecidableEq

/-- The menu lines printed by one iteration of the selector loop
(redrec.py:111-115): the entry at `selected_index` is marked with `"> "`,
all others with `"  "`. -/
def renderMenu (operations : List String) (selected_index : Nat) :
    List String :=
  operations.enum.map
    (fun p => if p.1 = selected_index then "> " ++ p.2 else "  " ++ p.2)

/-- `(selected_index - 1) % num_operations` with Python's nonnegative
modulo semantics (redrec.py:122). -/
def upIndex (selected_index num_operations : Nat) : Nat :=
  (((selected_index : Int) - 1) % (num_operations : Int)).toNat

/-- `(selected_index + 1) % num_operations` (redrec.py:124). -/
def downIndex (selected_index num_operations : Nat) : Nat :=
  (((selected_index : Int) + 1) % (num_operations : Int)).toNat

/-- Effects of one loop iteration up to and including a completed first
`getch()`: erase the previously drawn lines, redraw the menu, then switch
to raw mode and restore mode `m` around the read (redrec.py:109-117). -/
def iterEffs {M : Type} (operations : List String) (selected_index : Nat)
    (raw m : M) : List (Eff M) :=
  [.clear operations.length, .print (renderMenu operations selected_index),
   .setMode raw, .setMode m]

/-- Effects of the two extra completed `getch()` calls that consume the
rest of an escape sequence (redrec.py:120). -/
def escapeReadEffs {M : Type} (raw m : M) : List (Eff M) :=
  [.setMode raw, .setMode m, .setMode raw, .setMode m]

/-- The `while True` loop of `select_operation` (redrec.py:108-129), run on
a finite byte stream.  Each iteration erases and redraws the menu, then
reads a key.  `"\x1b"` starts an escape sequence: exactly two further bytes
are read before any key resolves; `"\x1b[A"` is up-arrow, `"\x1b[B"` is
down-arrow, any other completed 3-byte sequence is ignored.  `"\n"`/`"\r"`
erase the menu plus heading and confirm the entry under the cursor
(`operations[selected_index]`, total here via `getD`; reachable cursors are
always in range).  `"\x03"` is Ctrl-C.  Any other byte is ignored. -/
def selectLoop {M : Type} (operations : List String) (raw : M) :
    Nat → M → List Char → List (Eff M) × Outcome
  | idx, _m, [] =>
    ([.clear operations.length, .print (renderMenu operations idx),
      .setMode raw], .blocked idx)
  | idx, m, ch :: input =>
    if ch = '\x1b' then
      match input with
      | [] =>
        (iterEffs operations idx raw m ++ [.setMode raw], .blocked idx)
      | [_c2] =>
        (iterEffs operations idx raw m ++
          [.setMode raw, .setMode m, .setMode raw], .blocked idx)
      | c2 :: c3 :: input2 =>
        if c2 = '[' ∧ c3 = 'A' then
          let r := selectLoop operations raw
            (upIndex idx operations.length) m input2
          (iterEffs operations idx raw m ++ escapeReadEffs raw m ++ r.1, r.2)
        else if c2 = '[' ∧ c3 = 'B' then
          let r := selectLoop operations raw
            (downIndex idx operations.length) m input2
          (iterEffs operations idx raw m ++ escapeReadEffs raw m ++ r.1, r.2)
        else
          let r := selectLoop operations raw idx m input2
          (iterEffs operations idx raw m ++ escapeReadEffs raw m ++ r.1, r.2)
    else if ch = '\n' ∨ ch = '\r' then
      (iterEffs operations idx raw m ++ [.clear (operations.length + 1)],
       .confirmed (operations.getD idx ""))
    else if ch = '\x03' then
      (iterEffs operations idx raw m, .cancelled)
    else
      let r := selectLoop operations raw idx m input
      (iterEffs operations idx raw m ++ r.1, r.2)

/-- `select_operation` (redrec.py:103-129): print the heading, then run the
selection loop from cursor 0 with the terminal initially in mode `m0`. -/
def select_operation {M : Type} (operations : List String) (raw m0 : M)
    (input : List Char) : List (Eff M) × Outcome :=
  let r := selectLoop operations raw 0 m0 input
  (Eff.print ["Select an operation:"] :: r.1, r.2)

/-- The result value an outcome delivers to the caller. -/
def resultOf : Outcome → Option String
  | .confirmed s => some s
  | _ => none

/-- The process exit status an outcome causes inside the selector
(`sys.exit(0)` on cancellation; otherwise the selector does not exit). -/
def exitCodeOf : Outcome → Option Nat
  | .cancelled => some 0
  | _ => none

/-- The terminal mode after replaying an effect trace, starting from mode
`m0`. -/
def modeAfter {M : Type} (m0 : M) (effs : List (Eff M)) : M :=
  effs.foldl (fun m e => match e with | .setMode v => v | _ => m) m0

/-- The number of menu lines on screen after replaying an effect trace,
starting from `start` lines: `print` adds its lines, `clear n` erases up to
`n` of them (erasing beyond the top is saturated at zero), mode changes
print nothing. -/
def linesOnScreen {M : Type} (start : Nat) (effs : List (Eff M)) : Nat :=
  effs.foldl
    (fun n e =>
      match e with
      | .print ls => n + ls.length
      | .clear k => n - k
      | .setMode _ => n) start

/-- Result of `main`'s `-s`/`--select` branch (redrec.py:139-144). -/
inductive MainOutcome where
  /-- `sys.exit(msg)`: the message is reported and the process exits with a
  failure status. -/
  | fatalExit (msg : String)
  /-- The selector was entered and finished with the given outcome. -/
  | selected (o : Outcome)
deriving DecidableEq

/-- `main`'s selection branch (redrec.py:139-144): read the registry; if it
is empty, exit fatally with a message — the selector is never entered and
no terminal effect happens; otherwise run `select_operation`. -/
def main_select {M : Type} (raw m0 : M) (fs : Option String)
    (input : List Char) : List (Eff M) × MainOutcome :=
  let operations := read_operations fs
  if operations.isEmpty then ([], .fatalExit "No previous operations found.")
  else
    let r := select_operation operations raw m0 input
    (r.1, .selected r.2)

/-- `os.path.join` for the cases arising here: an absolute second component
replaces the first; otherwise the components are joined with `"/"`. -/
def osPathJoin (a b : String) : String :=
  if b.startsWith "/" then b
  else if a.endsWith "/" then a ++ b else a ++ "/" ++ b

/-- The operation name `run_with_asciinema` uses (redrec.py:43-44): the
explicit argument when given; otherwise the last registry entry when the
registry is non-empty, else `"currentoperation"`. -/
def resolveOperationName (operation_name : Option String)
    (fs : Option String) : String :=
  match operation_name with
  | some n => n
  | none =>
    if read_operations fs = [] then "currentoperation"
    else (read_operations fs).getLast!

/-- The registry-relevant behaviour of `run_with_asciinema`
(redrec.py:39-63): resolve the operation name, build the target directory
`os.path.join("/home/user/workspace", name)`, and append the name to the
registry (`save_operation`, redrec.py:53).  Returns the target directory
and the new registry file content.  The external recorder invocation and
the timestamped file name are outside this model. -/
def run_with_asciinema (fs : Option String)
    (operation_name : Option String) : String × Option String :=
  let name := resolveOperationName operation_name fs
  (osPathJoin "/home/user/workspace" name, save_operation name fs)

/-! ## String and `splitlines` infrastructure -/

theorem dataExt {a b : String} (h : a.data = b.data) : a = b := by
  cases a
  cases b
  simp_all

theorem data_append_eq (a b : String) : (a ++ b).data = a.data ++ b.data := by
  cases a
  cases b
  rfl

theorem mk_data (s : String) : String.mk s.data = s := by
  cases s
  rfl

@[simp] theorem data_empty_str : ("" : String).data = [] := rfl

@[simp] theorem data_newline_str : ("\n" : String).data = ['\n'] := rfl

theorem splitlinesAux_cons_no_break (c : Char) (h : isLineBreak c = false)
    (cs acc : List Char) :
    splitlinesAux (c :: cs) acc false = splitlinesAux cs (c :: acc) false := by
  have hr : ¬(c = '\r') := by
    intro e
    subst e
    simp [isLineBreak] at h
  simp [splitlinesAux, h, hr]

theorem splitlinesAux_newline (cs acc : List Char) :
    splitlinesAux ('\n' :: cs) acc false = acc.reverse :: splitlinesAux cs [] false := by
  simp [splitlinesAux, isLineBreak]

theorem splitlinesAux_no_break_prefix :
    ∀ (xs : List Char), (∀ c ∈ xs, isLineBreak c = false) →
      ∀ (cs acc : List Char),
        splitlinesAux (xs ++ cs) acc false =
          splitlinesAux cs (xs.reverse ++ acc) false := by
  intro xs
  induction xs with
  | nil => intro _ cs acc; simp
  | cons c xs ih =>
    intro h cs acc
    rw [List.cons_append,
      splitlinesAux_cons_no_break c (h c (List.mem_cons_self _ _)) _ _,
      ih (fun d hd => h d (List.mem_cons_of_mem c hd)) cs (c :: acc)]
    simp

theorem lineFree_no_break {x : String} (hx : lineFree x = true) :
    ∀ c ∈ x.data, isLineBreak c = false := by
  intro c hc
  have := List.all_eq_true.mp hx c hc
  simpa using this

theorem encodeRegistry_data (x : String) (l : List String) :
    (encodeRegistry (x :: l)).data = x.data ++ '\n' :: (encodeRegistry l).data := by
  simp [encodeRegistry, data_append_eq]

theorem splitlines_encode (l : List String)
    (hl : ∀ x ∈ l, lineFree x = true) :
    splitlines (encodeRegistry l) = l := by
  induction l with
  | nil => rfl
  | cons x l ih =>
    unfold splitlines
    rw [encodeRegistry_data,
      splitlinesAux_no_break_prefix x.data
        (lineFree_no_break (hl x (List.mem_cons_self _ _)))
        ('\n' :: (encodeRegistry l).data) [],
      splitlinesAux_newline]
    simp only [List.append_nil, List.reverse_reverse, List.map_cons, mk_data]
    have := ih (fun y hy => hl y (List.mem_cons_of_mem x hy))
    unfold splitlines at this
    rw [this]

theorem read_operations_encode (l : List String)
    (hl : ∀ x ∈ l, lineFree x = true) :
    read_operations (some (encodeRegistry l)) = l :=
  splitlines_encode l hl

theorem encodeRegistry_snoc (l : List String) (x : String) :
    encodeRegistry l ++ x ++ "\n" = encodeRegistry (l ++ [x]) := by
  apply dataExt
  induction l with
  | nil => simp [encodeRegistry, data_append_eq]
  | cons y l ih =>
    simp only [encodeRegistry, data_append_eq, List.cons_append] at *
    simp [ih]

/-- `save_operation` on a well-formed registry file: a no-op when the name
is present, otherwise the encoding of the list with the name appended. -/
theorem save_operation_encode (x : String) (l : List String)
    (hl : ∀ y ∈ l, lineFree y = true) :
    save_operation x (some (encodeRegistry l)) =
      some (encodeRegistry (if x ∈ l then l else l ++ [x])) := by
  unfold save_operation
  rw [read_operations_encode l hl]
  by_cases hm : x ∈ l
  · simp [hm]
  · simp only [hm, if_false, if_neg hm, Option.getD_some]
    exact congrArg some (encodeRegistry_snoc l x)

theorem save_operation_none (x : String) :
    save_operation x none = some (encodeRegistry [x]) := by
  unfold save_operation read_operations
  simp only [List.not_mem_nil, if_false, Option.getD_none]
  refine congrArg some (dataExt ?_)
  simp [encodeRegistry, data_append_eq]

/-- Both reachable shapes of the registry file (absent, or the encoding of
a list of names) under one roof. -/
theorem save_operation_shape (x : String) (l : List String)
    (fs : Option String) (hl : ∀ y ∈ l, lineFree y = true)
    (hfs : fs = some (encodeRegistry l) ∨ (fs = none ∧ l = [])) :
    save_operation x fs =
      some (encodeRegistry (if x ∈ l then l else l ++ [x])) := by
  rcases hfs with h | ⟨h1, h2⟩
  · rw [h]
    exact save_operation_encode x l hl
  · subst h1
    subst h2
    simp [save_operation_none x]

theorem getLast!_of_getLast? {l : List String} {a : String}
    (h : l.getLast? = some a) : l.getLast! = a := by
  cases l with
  | nil => simp at h
  | cons x xs =>
    simp only [List.getLast?, Option.some.injEq] at h
    simpa [List.getLast!] using h

/-! ## Claim theorems: registry -/

/-- C2: Append is idempotent — on a well-formed registry (`fs` absent, or
the encoding of a duplicate-free list `l` of line-free names), calling
`save_operation x` twice in immediate sequence yields the same registry as
calling it once, so `x` keeps the position of its first insertion; the
resulting registry contains `x` exactly once; and the sequential append
preserves the no-duplicates invariant. -/
theorem append_idempotent (fs : Option String) (l : List String) (x : String)
    (hl : ∀ y ∈ l, lineFree y = true) (hx : lineFree x = true)
    (hfs : fs = some (encodeRegistry l) ∨ (fs = none ∧ l = []))
    (hnd : l.Nodup) :
    save_operation x (save_operation x fs) = save_operation x fs ∧
    read_operations (save_operation x fs) =
      (if x ∈ l then l else l ++ [x]) ∧
    (read_operations (save_operation x (save_operation x fs))).count x = 1 ∧
    (read_operations (save_operation x fs)).Nodup := by
  by_cases hm : x ∈ l
  · have h1 : save_operation x fs = some (encodeRegistry l) := by
      have := save_operation_shape x l fs hl hfs
      rwa [if_pos hm] at this
    have h2 : save_operation x (some (encodeRegistry l)) =
        some (encodeRegistry l) := by
      have := save_operation_encode x l hl
      rwa [if_pos hm] at this
    refine ⟨by rw [h1, h2], ?_, ?_, ?_⟩
    · rw [h1, read_operations_encode l hl, if_pos hm]
    · rw [h1, h2, read_operations_encode l hl]
      exact List.count_eq_one_of_mem hnd hm
    · rw [h1, read_operations_encode l hl]
      exact hnd
  · have hlx : ∀ y ∈ l ++ [x], lineFree y = true := by
      intro y hy
      rcases List.mem_append.mp hy with h | h
      · exact hl y h
      · simp only [List.mem_singleton] at h
        subst h
        exact hx
    have h1 : save_operation x fs = some (encodeRegistry (l ++ [x])) := by
      have := save_operation_shape x l fs hl hfs
      rwa [if_neg hm] at this
    have hx1 : x ∈ l ++ [x] := by simp
    have h2 : save_operation x (some (encodeRegistry (l ++ [x]))) =
        some (encodeRegistry (l ++ [x])) := by
      have := save_operation_encode x (l ++ [x]) hlx
      rwa [if_pos hx1] at this
    refine ⟨by rw [h1, h2], ?_, ?_, ?_⟩
    · rw [h1, read_operations_encode _ hlx, if_neg hm]
    · rw [h1, h2, read_operations_encode _ hlx]
      rw [List.count_append]
      simp [List.count_eq_zero.mpr hm]
    · rw [h1, read_operations_encode _ hlx]
      simp [List.nodup_append, hnd, hm]

/-- Witness for C2 at the concrete registry `["a"]` and name `"b"`. -/
theorem append_idempotent_witness :
    save_operation "b" (save_operation "b" (some (encodeRegistry ["a"]))) =
        save_operation "b" (some (encodeRegistry ["a"])) ∧
    read_operations (save_operation "b" (some (encodeRegistry ["a"]))) =
      (if "b" ∈ ["a"] then ["a"] else ["a"] ++ ["b"]) ∧
    (read_operations (save_operation "b" (save_operation "b"
        (some (encodeRegistry ["a"]))))).count "b" = 1 ∧
    (read_operations (save_operation "b" (some (encodeRegistry ["a"])))).Nodup :=
  append_idempotent (some (encodeRegistry ["a"])) ["a"] "b"
    (by decide) (by decide) (Or.inl rfl) (by decide)

/-- C3: Order preservation — starting from an absent registry file,
sequentially appending three pairwise-distinct line-free names `a, b, c`
makes `read_operations` return exactly `[a, b, c]` in that order. -/
theorem order_preservation (a b c : String)
    (ha : lineFree a = true) (hb : lineFree b = true) (hc : lineFree c = true)
    (hba : b ≠ a) (hca : c ≠ a) (hcb : c ≠ b) :
    read_operations
      (save_operation c (save_operation b (save_operation a none))) =
      [a, b, c] := by
  have h1 : save_operation a none = some (encodeRegistry [a]) :=
    save_operation_none a
  have hla : ∀ y ∈ [a], lineFree y = true := by simp [ha]
  have h2 : save_operation b (some (encodeRegistry [a])) =
      some (encodeRegistry [a, b]) := by
    have := save_operation_encode b [a] hla
    rw [if_neg (by simp [hba])] at this
    simpa using this
  have hlab : ∀ y ∈ [a, b], lineFree y = true := by simp [ha, hb]
  have h3 : save_operation c (some (encodeRegistry [a, b])) =
      some (encodeRegistry [a, b, c]) := by
    have := save_operation_encode c [a, b] hlab
    rw [if_neg (by simp [hca, hcb])] at this
    simpa using this
  rw [h1, h2, h3, read_operations_encode [a, b, c] (by simp [ha, hb, hc])]

/-- Witness for C3 at the concrete names `"a", "b", "c"`. -/
theorem order_preservation_witness :
    read_operations (save_operation "c" (save_operation "b"
      (save_operation "a" none))) = ["a", "b", "c"] :=
  order_preservation "a" "b" "c" (by decide) (by decide) (by decide)
    (by decide) (by decide) (by decide)

/-- C4: Missing-file safety — `read_operations` on an absent registry file
returns the empty sequence (and, being a total function of the model,
cannot fail). -/
theorem missing_file_read : read_operations none = ([] : List String) := rfl

/-- C10: Implicit default-name rule — when no operation name is supplied,
`run_with_asciinema` uses the last entry of `read_operations` for both the
target directory and the registry append when the registry is non-empty,
and the literal `"currentoperation"` when it is empty. -/
theorem default_name_rule (fs : Option String) :
    (read_operations fs = [] →
      run_with_asciinema fs none =
        (osPathJoin "/home/user/workspace" "currentoperation",
         save_operation "currentoperation" fs)) ∧
    (∀ lastName, (read_operations fs).getLast? = some lastName →
      run_with_asciinema fs none =
        (osPathJoin "/home/user/workspace" lastName,
         save_operation lastName fs)) := by
  constructor
  · intro h
    simp [run_with_asciinema, resolveOperationName, h]
  · intro lastName h
    have hne : ¬(read_operations fs = []) := by
      intro e
      rw [e] at h
      simp at h
    have hlast : (read_operations fs).getLast! = lastName :=
      getLast!_of_getLast? h
    simp [run_with_asciinema, resolveOperationName, hne, hlast]

/-- Witness for C10: an absent registry resolves to `"currentoperation"`,
and the registry content `"op1\nop2\n"` resolves to its last entry
`"op2"`. -/
theorem default_name_rule_witness :
    run_with_asciinema none none =
      (osPathJoin "/home/user/workspace" "currentoperation",
       save_operation "currentoperation" none) ∧
    run_with_asciinema (some "op1\nop2\n") none =
      (osPathJoin "/home/user/workspace" "op2",
       save_operation "op2" (some "op1\nop2\n")) :=
  ⟨(default_name_rule none).1 rfl,
   (default_name_rule (some "op1\nop2\n")).2 "op2" (by decide)⟩

/-! ## Step-shape lemmas for the selector loop -/

theorem selectLoop_eq_nil {M : Type} (raw : M) (ops : List String)
    (idx : Nat) (m : M) :
    selectLoop ops raw idx m [] =
      ([.clear ops.length, .print (renderMenu ops idx), .setMode raw],
       .blocked idx) := by
  rw [selectLoop.eq_def]

theorem selectLoop_eq_esc_nil {M : Type} (raw : M) (ops : List String)
    (idx : Nat) (m : M) :
    selectLoop ops raw idx m ['\x1b'] =
      (iterEffs ops idx raw m ++ [.setMode raw], .blocked idx) := by
  rw [selectLoop.eq_def]
  simp

theorem selectLoop_eq_esc_one {M : Type} (raw : M) (ops : List String)
    (idx : Nat) (m : M) (c2 : Char) :
    selectLoop ops raw idx m ['\x1b', c2] =
      (iterEffs ops idx raw m ++
        [.setMode raw, .setMode m, .setMode raw], .blocked idx) := by
  rw [selectLoop.eq_def]
  simp

theorem selectLoop_eq_esc_up {M : Type} (raw : M) (ops : List String)
    (idx : Nat) (m : M) (rest : List Char) :
    selectLoop ops raw idx m ('\x1b' :: '[' :: 'A' :: rest) =
      (iterEffs ops idx raw m ++ escapeReadEffs raw m ++
        (selectLoop ops raw (upIndex idx ops.length) m rest).1,
       (selectLoop ops raw (upIndex idx ops.length) m rest).2) := by
  rw [selectLoop.eq_def]
  simp [show ¬('A' = 'B') from by decide]

theorem selectLoop_eq_esc_down {M : Type} (raw : M) (ops : List String)
    (idx : Nat) (m : M) (rest : List Char) :
    selectLoop ops raw idx m ('\x1b' :: '[' :: 'B' :: rest) =
      (iterEffs ops idx raw m ++ escapeReadEffs raw m ++
        (selectLoop ops raw (downIndex idx ops.length) m rest).1,
       (selectLoop ops raw (downIndex idx ops.length) m rest).2) := by
  rw [selectLoop.eq_def]
  simp [show ¬('B' = 'A') from by decide]

theorem selectLoop_eq_esc_other {M : Type} (raw : M) (ops : List String)
    (idx : Nat) (m : M) (c2 c3 : Char) (rest : List Char)
    (h1 : ¬(c2 = '[' ∧ c3 = 'A')) (h2 : ¬(c2 = '[' ∧ c3 = 'B')) :
    selectLoop ops raw idx m ('\x1b' :: c2 :: c3 :: rest) =
      (iterEffs ops idx raw m ++ escapeReadEffs raw m ++
        (selectLoop ops raw idx m rest).1,
       (selectLoop ops raw idx m rest).2) := by
  rw [selectLoop.eq_def]
  simp [h1, h2]

theorem selectLoop_eq_enter {M : Type} (raw : M) (ops : List String)
    (idx : Nat) (m : M) (ch : Char) (rest : List Char)
    (h : ch = '\n' ∨ ch = '\r') :
    selectLoop ops raw idx m (ch :: rest) =
      (iterEffs ops idx raw m ++ [.clear (ops.length + 1)],
       .confirmed (ops.getD idx "")) := by
  rcases h with h | h <;> subst h <;> rw [selectLoop.eq_def] <;>
    simp [show ¬('\n' = '\x1b') from by decide,
      show ¬('\r' = '\x1b') from by decide]

theorem selectLoop_eq_ctrlc {M : Type} (raw : M) (ops : List String)
    (idx : Nat) (m : M) (rest : List Char) :
    selectLoop ops raw idx m ('\x03' :: rest) =
      (iterEffs ops idx raw m, .cancelled) := by
  rw [selectLoop.eq_def]
  simp [show ¬('\x03' = '\x1b') from by decide,
    show ¬('\x03' = '\n') from by decide,
    show ¬('\x03' = '\r') from by decide]

theorem selectLoop_eq_other {M : Type} (raw : M) (ops : List String)
    (idx : Nat) (m : M) (c : Char) (rest : List Char)
    (h1 : c ≠ '\x1b') (h2 : c ≠ '\n') (h3 : c ≠ '\r') (h4 : c ≠ '\x03') :
    selectLoop ops raw idx m (c :: rest) =
      (iterEffs ops idx raw m ++ (selectLoop ops raw idx m rest).1,
       (selectLoop ops raw idx m rest).2) := by
  rw [selectLoop.eq_def]
  simp [h1, h2, h3, h4]

/-! ## Trace observables -/

theorem modeAfter_append {M : Type} (m : M) (a b : List (Eff M)) :
    modeAfter m (a ++ b) = modeAfter (modeAfter m a) b := by
  simp [modeAfter, List.foldl_append]

theorem linesOnScreen_append {M : Type} (n : Nat) (a b : List (Eff M)) :
    linesOnScreen n (a ++ b) = linesOnScreen (linesOnScreen n a) b := by
  simp [linesOnScreen, List.foldl_append]

theorem renderMenu_length (ops : List String) (idx : Nat) :
    (renderMenu ops idx).length = ops.length := by
  simp [renderMenu]

theorem modeAfter_iterEffs {M : Type} (ops : List String) (idx : Nat)
    (raw m : M) : modeAfter m (iterEffs ops idx raw m) = m := by
  simp [modeAfter, iterEffs]

theorem modeAfter_escapeReadEffs {M : Type} (raw m : M) :
    modeAfter m (escapeReadEffs raw m) = m := by
  simp [modeAfter, escapeReadEffs]

theorem linesOnScreen_iterEffs {M : Type} (L : Nat) (ops : List String)
    (idx : Nat) (raw m : M) :
    linesOnScreen L (iterEffs ops idx raw m) =
      L - ops.length + ops.length := by
  simp [linesOnScreen, iterEffs, renderMenu_length]

theorem linesOnScreen_escapeReadEffs {M : Type} (L : Nat) (raw m : M) :
    linesOnScreen L (escapeReadEffs raw m) = L := by
  simp [linesOnScreen, escapeReadEffs]

/-- Invariants of every cancelled run of the selector loop: the terminal
mode is back to the mode the loop started in (every `getch` restores it),
and — because the Ctrl-C branch performs no erase after the final redraw —
exactly `ops.length` menu lines are still on screen. -/
theorem selectLoop_cancelled_invariants {M : Type} (raw : M)
    (ops : List String) :
    ∀ (n : Nat) (input : List Char), input.length ≤ n →
      ∀ (idx : Nat) (m : M),
        (selectLoop ops raw idx m input).2 = .cancelled →
        modeAfter m (selectLoop ops raw idx m input).1 = m ∧
        ∀ L, L ≤ ops.length →
          linesOnScreen L (selectLoop ops raw idx m input).1 = ops.length := by
  intro n
  induction n with
  | zero =>
    intro input hle idx m hc
    rcases input with _ | ⟨ch, input1⟩
    · rw [selectLoop_eq_nil] at hc
      simp at hc
    · simp at hle
  | succ n ih =>
    intro input hle idx m hc
    rcases input with _ | ⟨ch, input1⟩
    · rw [selectLoop_eq_nil] at hc
      simp at hc
    · simp only [List.length_cons] at hle
      by_cases hesc : ch = '\x1b'
      · subst hesc
        rcases input1 with _ | ⟨c2, input2⟩
        · rw [selectLoop_eq_esc_nil] at hc
          simp at hc
        · rcases input2 with _ | ⟨c3, input3⟩
          · rw [selectLoop_eq_esc_one] at hc
            simp at hc
          · simp only [List.length_cons] at hle
            have hle3 : input3.length ≤ n := by omega
            by_cases hA : c2 = '[' ∧ c3 = 'A'
            · obtain ⟨ha, hb⟩ := hA
              subst ha
              subst hb
              rw [selectLoop_eq_esc_up] at hc ⊢
              simp only [] at hc
              obtain ⟨hm, hl⟩ :=
                ih input3 hle3 (upIndex idx ops.length) m hc
              refine ⟨?_, ?_⟩
              · rw [modeAfter_append, modeAfter_append, modeAfter_iterEffs,
                  modeAfter_escapeReadEffs]
                exact hm
              · intro L hL
                rw [linesOnScreen_append, linesOnScreen_append,
                  linesOnScreen_iterEffs, linesOnScreen_escapeReadEffs,
                  show L - ops.length + ops.length = ops.length from by omega]
                exact hl ops.length le_rfl
            · by_cases hB : c2 = '[' ∧ c3 = 'B'
              · obtain ⟨ha, hb⟩ := hB
                subst ha
                subst hb
                rw [selectLoop_eq_esc_down] at hc ⊢
                simp only [] at hc
                obtain ⟨hm, hl⟩ :=
                  ih input3 hle3 (downIndex idx ops.length) m hc
                refine ⟨?_, ?_⟩
                · rw [modeAfter_append, modeAfter_append, modeAfter_iterEffs,
                    modeAfter_escapeReadEffs]
                  exact hm
                · intro L hL
                  rw [linesOnScreen_append, linesOnScreen_append,
                    linesOnScreen_iterEffs, linesOnScreen_escapeReadEffs,
                    show L - ops.length + ops.length = ops.length from by omega]
                  exact hl ops.length le_rfl
              · rw [selectLoop_eq_esc_other raw ops idx m c2 c3 input3 hA hB]
                  at hc ⊢
                simp only [] at hc
                obtain ⟨hm, hl⟩ := ih input3 hle3 idx m hc
                refine ⟨?_, ?_⟩
                · rw [modeAfter_append, modeAfter_append, modeAfter_iterEffs,
                    modeAfter_escapeReadEffs]
                  exact hm
                · intro L hL
                  rw [linesOnScreen_append, linesOnScreen_append,
                    linesOnScreen_iterEffs, linesOnScreen_escapeReadEffs,
                    show L - ops.length + ops.length = ops.length from by omega]
                  exact hl ops.length le_rfl
      · by_cases henter : ch = '\n' ∨ ch = '\r'
        · rw [selectLoop_eq_enter raw ops idx m ch input1 henter] at hc
          simp at hc
        · by_cases hctrl : ch = '\x03'
          · subst hctrl
            rw [selectLoop_eq_ctrlc]
            refine ⟨modeAfter_iterEffs ops idx raw m, ?_⟩
            intro L hL
            rw [linesOnScreen_iterEffs]
            omega
          · push_neg at henter
            rw [selectLoop_eq_other raw ops idx m ch input1
              hesc henter.1 henter.2 hctrl] at hc ⊢
            simp only [] at hc
            obtain ⟨hm, hl⟩ := ih input1 (by omega) idx m hc
            refine ⟨?_, ?_⟩
            · rw [modeAfter_append, modeAfter_iterEffs]
              exact hm
            · intro L hL
              rw [linesOnScreen_append, linesOnScreen_iterEffs,
                show L - ops.length + ops.length = ops.length from by omega]
              exact hl ops.length le_rfl

/-! ## Claim theorems: selector -/

/-- Python's `(i - 1) % n` on a nonnegative `i` and positive `n` equals the
natural-number expression `(i + n - 1) % n`. -/
theorem upIndex_eq (idx N : Nat) (hN : 0 < N) :
    upIndex idx N = (idx + N - 1) % N := by
  unfold upIndex
  rcases Nat.eq_zero_or_pos idx with h | h
  · subst h
    have h1 : ((0 : Nat) : Int) - 1 = ((N : Int) - 1) + (N : Int) * (-1) := by
      push_cast
      ring
    rw [h1, Int.add_mul_emod_self_left,
      Int.emod_eq_of_lt (by omega) (by omega)]
    have h2 : (0 + N - 1) % N = 0 + N - 1 := Nat.mod_eq_of_lt (by omega)
    rw [h2]
    omega
  · have h1 : (idx : Int) - 1 = ((idx - 1 : Nat) : Int) := by omega
    rw [h1, ← Int.natCast_mod, Int.toNat_natCast,
      show idx + N - 1 = (idx - 1) + N from by omega, Nat.add_mod_right]

/-- Python's `(i + 1) % n` on naturals. -/
theorem downIndex_eq (idx N : Nat) :
    downIndex idx N = (idx + 1) % N := by
  unfold downIndex
  have h1 : (idx : Int) + 1 = ((idx + 1 : Nat) : Int) := by
    push_cast
    ring
  rw [h1, ← Int.natCast_mod, Int.toNat_natCast]

/-- C5: Selector wraparound — for a non-empty candidate list of length `N`,
an up-arrow in the navigation loop continues with cursor
`(cursor + N - 1) % N` (i.e. `(cursor - 1 + N) mod N`) and a down-arrow
with `(cursor + 1) % N`; concretely, with candidates `[x, y, z]` and
cursor 0, two down-arrows reach index 2, a third wraps to 0, and one
up-arrow from 0 wraps to 2. -/
theorem selector_wraparound :
    (∀ {M : Type} (raw : M) (ops : List String) (idx : Nat) (m : M)
        (rest : List Char), 0 < ops.length →
      (selectLoop ops raw idx m ('\x1b' :: '[' :: 'A' :: rest)).2 =
        (selectLoop ops raw ((idx + ops.length - 1) % ops.length) m rest).2 ∧
      (selectLoop ops raw idx m ('\x1b' :: '[' :: 'B' :: rest)).2 =
        (selectLoop ops raw ((idx + 1) % ops.length) m rest).2) ∧
    (∀ {M : Type} (raw m : M) (x y z : String),
      (selectLoop [x, y, z] raw 0 m ['\x1b', '[', 'B', '\x1b', '[', 'B']).2 =
        .blocked 2 ∧
      (selectLoop [x, y, z] raw 0 m
        ['\x1b', '[', 'B', '\x1b', '[', 'B', '\x1b', '[', 'B']).2 =
        .blocked 0 ∧
      (selectLoop [x, y, z] raw 0 m ['\x1b', '[', 'A']).2 = .blocked 2) := by
  constructor
  · intro M raw ops idx m rest hN
    constructor
    · rw [← upIndex_eq idx ops.length hN]
      simp [selectLoop, show ¬('A' = 'B') from by decide]
    · rw [← downIndex_eq idx ops.length]
      simp [selectLoop, show ¬('B' = 'A') from by decide]
  · intro M raw m x y z
    refine ⟨?_, ?_, ?_⟩ <;>
      simp [selectLoop, upIndex, downIndex,
        show ¬('B' = 'A') from by decide]

/-- Witness for C5 at candidates `["x", "y", "z"]`. -/
theorem selector_wraparound_witness :
    (selectLoop ["x", "y", "z"] (1 : Nat) 1 0 ('\x1b' :: '[' :: 'A' :: [])).2 =
      (selectLoop ["x", "y", "z"] (1 : Nat) ((1 + 3 - 1) % 3) 0 []).2 ∧
    (selectLoop ["x", "y", "z"] (1 : Nat) 0 0
      ['\x1b', '[', 'B', '\x1b', '[', 'B']).2 = .blocked 2 :=
  ⟨(selector_wraparound.1 (1 : Nat) ["x", "y", "z"] 1 0 [] (by decide)).1,
   (selector_wraparound.2 (1 : Nat) 0 "x" "y" "z").1⟩

/-- C6: Confirm returns the exact candidate under the cursor — an Enter
key (`'\n'` or `'\r'`) in the navigation loop yields outcome `confirmed`
with the candidate at the current cursor index; concretely, with
candidates `["alpha", "beta"]`, navigating to index 1 and pressing Enter
yields `"beta"`. -/
theorem confirm_returns_candidate :
    (∀ {M : Type} (raw : M) (ops : List String) (idx : Nat) (m : M)
        (rest : List Char) (h : idx < ops.length),
      (selectLoop ops raw idx m ('\n' :: rest)).2 =
        .confirmed (ops.get ⟨idx, h⟩) ∧
      (selectLoop ops raw idx m ('\r' :: rest)).2 =
        .confirmed (ops.get ⟨idx, h⟩)) ∧
    (∀ {M : Type} (raw m : M),
      (select_operation ["alpha", "beta"] raw m ['\x1b', '[', 'B', '\n']).2 =
        .confirmed "beta") := by
  constructor
  · intro M raw ops idx m rest h
    have hg : ops.getD idx "" = ops.get ⟨idx, h⟩ := by
      rw [List.getD_eq_getElem?_getD, List.getElem?_eq_getElem h]
      rfl
    constructor
    · rw [selectLoop.eq_def]
      simp [show ¬('\n' = '\x1b') from by decide, List.getElem?_eq_getElem h]
    · rw [selectLoop.eq_def]
      simp [show ¬('\r' = '\x1b') from by decide, List.getElem?_eq_getElem h]
  · intro M raw m
    simp [select_operation, selectLoop, downIndex,
      show ¬('B' = 'A') from by decide,
      show ¬('\n' = '\x1b') from by decide]

/-- Witness for C6 at candidates `["alpha", "beta"]`, cursor 1. -/
theorem confirm_returns_candidate_witness :
    (selectLoop ["alpha", "beta"] (1 : Nat) 1 0 ['\n']).2 =
      .confirmed "beta" :=
  (confirm_returns_candidate.1 (1 : Nat) ["alpha", "beta"] 1 0 []
    (by decide)).1

/-- C7: Escape-sequence decoding is atomic and complete — after the byte
`0x1B` the loop reads exactly two more bytes before resolving anything:
`ESC [ A` continues as one up-arrow step and `ESC [ B` as one down-arrow
step (a single erase/redraw for the whole triple, never three independent
key events), any other completed 3-byte sequence is discarded with cursor
and state unchanged, and an incomplete sequence leaves the loop blocked in
the read with no state change. -/
theorem escape_sequence_atomic :
    (∀ {M : Type} (raw : M) (ops : List String) (idx : Nat) (m : M)
        (rest : List Char),
      selectLoop ops raw idx m ('\x1b' :: '[' :: 'A' :: rest) =
        (iterEffs ops idx raw m ++ escapeReadEffs raw m ++
          (selectLoop ops raw (upIndex idx ops.length) m rest).1,
         (selectLoop ops raw (upIndex idx ops.length) m rest).2) ∧
      selectLoop ops raw idx m ('\x1b' :: '[' :: 'B' :: rest) =
        (iterEffs ops idx raw m ++ escapeReadEffs raw m ++
          (selectLoop ops raw (downIndex idx ops.length) m rest).1,
         (selectLoop ops raw (downIndex idx ops.length) m rest).2)) ∧
    (∀ {M : Type} (raw : M) (ops : List String) (idx : Nat) (m : M)
        (c2 c3 : Char) (rest : List Char),
      ¬(c2 = '[' ∧ c3 = 'A') → ¬(c2 = '[' ∧ c3 = 'B') →
      selectLoop ops raw idx m ('\x1b' :: c2 :: c3 :: rest) =
        (iterEffs ops idx raw m ++ escapeReadEffs raw m ++
          (selectLoop ops raw idx m rest).1,
         (selectLoop ops raw idx m rest).2)) ∧
    (∀ {M : Type} (raw : M) (ops : List String) (idx : Nat) (m : M)
        (c2 : Char),
      (selectLoop ops raw idx m ['\x1b']).2 = .blocked idx ∧
      (selectLoop ops raw idx m ['\x1b', c2]).2 = .blocked idx) := by
  refine ⟨?_, ?_, ?_⟩
  · intro M raw ops idx m rest
    constructor
    · simp [selectLoop, show ¬('A' = 'B') from by decide]
    · simp [selectLoop, show ¬('B' = 'A') from by decide]
  · intro M raw ops idx m c2 c3 rest h1 h2
    simp [selectLoop, h1, h2]
  · intro M raw ops idx m c2
    constructor <;> simp [selectLoop]

/-- Witness for C7: the discarded completed sequence `ESC X Y`. -/
theorem escape_sequence_atomic_witness :
    selectLoop ["a"] (1 : Nat) 0 0 ('\x1b' :: 'X' :: 'Y' :: []) =
      (iterEffs ["a"] 0 1 0 ++ escapeReadEffs 1 0 ++
        (selectLoop ["a"] (1 : Nat) 0 0 []).1,
       (selectLoop ["a"] (1 : Nat) 0 0 []).2) :=
  escape_sequence_atomic.2.1 (1 : Nat) ["a"] 0 0 'X' 'Y' []
    (by decide) (by decide)

/-- C8: Unrecognized input is silently ignored — any byte that is not ESC,
not `'\n'`/`'\r'` and not `0x03` leaves the loop running with the same
cursor, produces no result, and only redraws the menu. -/
theorem unrecognized_input_ignored :
    ∀ {M : Type} (raw : M) (ops : List String) (idx : Nat) (m : M)
      (c : Char) (rest : List Char),
      c ≠ '\x1b' → c ≠ '\n' → c ≠ '\r' → c ≠ '\x03' →
      selectLoop ops raw idx m (c :: rest) =
        (iterEffs ops idx raw m ++ (selectLoop ops raw idx m rest).1,
         (selectLoop ops raw idx m rest).2) := by
  intro M raw ops idx m c rest h1 h2 h3 h4
  rw [selectLoop.eq_def]
  simp [h1, h2, h3, h4]

/-- Witness for C8 at the byte `'q'`. -/
theorem unrecognized_input_ignored_witness :
    selectLoop ["a"] (1 : Nat) 0 0 ['q'] =
      (iterEffs ["a"] 0 1 0 ++ (selectLoop ["a"] (1 : Nat) 0 0 []).1,
       (selectLoop ["a"] (1 : Nat) 0 0 []).2) :=
  unrecognized_input_ignored (1 : Nat) ["a"] 0 0 'q' []
    (by decide) (by decide) (by decide) (by decide)

/-- C9: An empty candidate list at selection time is a fatal precondition
failure — when `read_operations` is empty, `main`'s selection branch exits
with the failure message, the selector is never entered, and no terminal
effect (in particular no switch to raw mode) happens. -/
theorem empty_candidates_fatal {M : Type} (raw m0 : M) (fs : Option String)
    (input : List Char) (h : read_operations fs = []) :
    main_select raw m0 fs input =
      ([], MainOutcome.fatalExit "No previous operations found.") := by
  unfold main_select
  rw [h]
  simp

/-- Witness for C9 at an absent registry file. -/
theorem empty_candidates_fatal_witness :
    main_select (1 : Nat) 0 none ['\n'] =
      ([], MainOutcome.fatalExit "No previous operations found.") :=
  empty_candidates_fatal (1 : Nat) 0 none ['\n'] rfl

/-- C1 counterexample: with one candidate `["a"]` and the single input
byte `0x03`, the selector cancels (models `sys.exit(0)`), but — contrary
to the claim — the menu is not erased before exiting: the drawn candidate
line is still on screen (the Ctrl-C branch at redrec.py:128-129 performs
no `clear_previous_lines` call). -/
theorem cancel_not_erased_counterexample :
    (select_operation ["a"] (1 : Nat) 0 ['\x03']).2 = .cancelled ∧
    ¬ linesOnScreen 0 (select_operation ["a"] (1 : Nat) 0 ['\x03']).1 = 0 := by
  decide

/-- C1 amended: when the selector receives `0x03` while navigating, from
any cursor position, it terminates with a success exit status
(`sys.exit(0)`), produces no result value, and leaves the terminal mode
identical to what it was before the selector started (every `getch`
restores the saved settings); however it does **not** erase the menu — the
`ops.length` drawn candidate lines are still on screen when the process
exits. -/
theorem cancel_clean_amended {M : Type} (raw m0 : M) (ops : List String)
    (input : List Char) (hN : 0 < ops.length)
    (hc : (select_operation ops raw m0 input).2 = .cancelled) :
    resultOf (select_operation ops raw m0 input).2 = none ∧
    exitCodeOf (select_operation ops raw m0 input).2 = some 0 ∧
    modeAfter m0 (select_operation ops raw m0 input).1 = m0 ∧
    linesOnScreen 0 (select_operation ops raw m0 input).1 = ops.length := by
  have hc2 : (selectLoop ops raw 0 m0 input).2 = .cancelled := hc
  obtain ⟨hm, hl⟩ :=
    selectLoop_cancelled_invariants raw ops input.length input le_rfl 0 m0 hc2
  refine ⟨?_, ?_, ?_, ?_⟩
  · rw [hc]
    rfl
  · rw [hc]
    rfl
  · show modeAfter m0
      (Eff.print ["Select an operation:"] :: (selectLoop ops raw 0 m0 input).1)
        = m0
    rw [show modeAfter m0
        (Eff.print ["Select an operation:"] ::
          (selectLoop ops raw 0 m0 input).1) =
      modeAfter m0 (selectLoop ops raw 0 m0 input).1 from rfl]
    exact hm
  · show linesOnScreen 0
      (Eff.print ["Select an operation:"] :: (selectLoop ops raw 0 m0 input).1)
        = ops.length
    rw [show linesOnScreen 0
        (Eff.print ["Select an operation:"] ::
          (selectLoop ops raw 0 m0 input).1) =
      linesOnScreen 1 (selectLoop ops raw 0 m0 input).1 from rfl]
    exact hl 1 hN

/-- Witness for the amended C1 at candidates `["a"]` and input `0x03`. -/
theorem cancel_clean_amended_witness :
    resultOf (select_operation ["b"] (1 : Nat) 0 ['q', '\x03']).2 = none ∧
    exitCodeOf (select_operation ["b"] (1 : Nat) 0 ['q', '\x03']).2 =
      some 0 ∧
    modeAfter 0 (select_operation ["b"] (1 : Nat) 0 ['q', '\x03']).1 = 0 ∧
    linesOnScreen 0 (select_operation ["b"] (1 : Nat) 0 ['q', '\x03']).1 =
      (["b"] : List String).length :=
  cancel_clean_amended (1 : Nat) 0 ["b"] ['q', '\x03'] (by decide) (by decide)

end Redrec
